import Mathlib

/-!
Verification of the DRS archive reader (genie-drs): a shallow embedding of
`src/lib.rs` in Lean 4. The underlying `Read + Seek` handle is modelled as a
byte list together with a cursor position; every parsing function passes the
stream state explicitly and returns `Except` for fallible operations, mirroring
Rust's `Result` and the `?` operator. The `panic!` branch of `read_tables` is
modelled with a dedicated `PResult.panic` outcome.
-/

namespace GenieDRS

/-- Error kinds distinguished by the library: `NotFound` for failed lookups
(`ErrorKind::NotFound` in Rust) and `IOFault` for every stream read, seek or
short-read failure. -/
inductive ErrKind where
  | NotFound
  | IOFault
deriving DecidableEq

/-- A seekable byte stream: the complete underlying data plus a read cursor.
Models the `R: Read + Seek` handle owned by the archive. -/
structure ByteStream where
  data : List Nat
  pos : Nat
deriving DecidableEq

/-- Model of `Read::read_exact` into an `n`-byte buffer: succeeds returning
exactly `n` bytes from the cursor and advances the cursor by `n`; fails with an
I/O fault when fewer than `n` bytes remain. -/
def readExact (s : ByteStream) (n : Nat) : Except ErrKind (List Nat × ByteStream) :=
  if s.pos + n ≤ s.data.length then
    Except.ok ((s.data.drop s.pos).take n, ⟨s.data, s.pos + n⟩)
  else
    Except.error ErrKind.IOFault

/-- Little-endian assembly of four bytes into a 32-bit value. -/
def bytesToU32 : List Nat → Nat
  | b0 :: b1 :: b2 :: b3 :: _ => b0 + 256 * b1 + 65536 * b2 + 16777216 * b3
  | _ => 0

/-- Model of `source.read_u32::<LE>()`. -/
def readU32LE (s : ByteStream) : Except ErrKind (Nat × ByteStream) :=
  match readExact s 4 with
  | Except.error e => Except.error e
  | Except.ok (bs, s1) => Except.ok (bytesToU32 bs, s1)

/-- Model of `SeekFrom::Start(offset)`: sets the cursor to an absolute
position (always succeeds, as `File::seek` does for any target offset). -/
def seekStart (s : ByteStream) (offset : Nat) : ByteStream :=
  ⟨s.data, offset⟩

/-- The DRS archive header (`struct DRSHeader`). -/
structure DRSHeader where
  banner_msg : List Nat
  version : List Nat
  password : List Nat
  num_resource_types : Nat
  directory_size : Nat
deriving DecidableEq

/-- Model of `DRSHeader::from`: reads 40 + 4 + 12 bytes then two little-endian u32s,
64 bytes in all, from the stream's current position. -/
def DRSHeader.ofStream (s : ByteStream) : Except ErrKind (DRSHeader × ByteStream) :=
  match readExact s 40 with
  | Except.error e => Except.error e
  | Except.ok (banner_msg, s1) =>
  match readExact s1 4 with
  | Except.error e => Except.error e
  | Except.ok (version, s2) =>
  match readExact s2 12 with
  | Except.error e => Except.error e
  | Except.ok (password, s3) =>
  match readU32LE s3 with
  | Except.error e => Except.error e
  | Except.ok (num_resource_types, s4) =>
  match readU32LE s4 with
  | Except.error e => Except.error e
  | Except.ok (directory_size, s5) =>
    Except.ok (⟨banner_msg, version, password, num_resource_types, directory_size⟩, s5)

/-- A single resource entry (`struct DRSResource`). -/
structure DRSResource where
  id : Nat
  offset : Nat
  size : Nat
deriving DecidableEq

/-- Model of `DRSResource::from`: reads three little-endian u32s (12 bytes). -/
def DRSResource.ofStream (s : ByteStream) : Except ErrKind (DRSResource × ByteStream) :=
  match readU32LE s with
  | Except.error e => Except.error e
  | Except.ok (id, s1) =>
  match readU32LE s1 with
  | Except.error e => Except.error e
  | Except.ok (offset, s2) =>
  match readU32LE s2 with
  | Except.error e => Except.error e
  | Except.ok (size, s3) =>
    Except.ok (⟨id, offset, size⟩, s3)

/-- A table of resources (`struct DRSTable`). `resource_type` is the raw
4-byte tag, compared byte-for-byte. -/
structure DRSTable where
  resource_type : List Nat
  offset : Nat
  num_resources : Nat
  resources : List DRSResource
deriving DecidableEq

/-- Model of `DRSTable::from`: reads the 4-byte tag and two little-endian u32s
(12 bytes); the resource list starts empty. -/
def DRSTable.ofStream (s : ByteStream) : Except ErrKind (DRSTable × ByteStream) :=
  match readExact s 4 with
  | Except.error e => Except.error e
  | Except.ok (resource_type, s1) =>
  match readU32LE s1 with
  | Except.error e => Except.error e
  | Except.ok (offset, s2) =>
  match readU32LE s2 with
  | Except.error e => Except.error e
  | Except.ok (num_resources, s3) =>
    Except.ok (⟨resource_type, offset, num_resources, []⟩, s3)

/-- The loop body of `DRSTable::read_resources`: reads `n` consecutive
resource entries from the stream's current position, in order. -/
def readResourcesLoop : Nat → ByteStream → Except ErrKind (List DRSResource × ByteStream)
  | 0, s => Except.ok ([], s)
  | Nat.succ m, s =>
    match DRSResource.ofStream s with
    | Except.error e => Except.error e
    | Except.ok (r, s1) =>
    match readResourcesLoop m s1 with
    | Except.error e => Except.error e
    | Except.ok (rs, s2) => Except.ok (r :: rs, s2)

/-- Model of `DRSTable::read_resources`: pushes `num_resources` entries read from the
stream onto the table's resource list. -/
def DRSTable.read_resources (t : DRSTable) (s : ByteStream) :
    Except ErrKind (DRSTable × ByteStream) :=
  match readResourcesLoop t.num_resources s with
  | Except.error e => Except.error e
  | Except.ok (rs, s1) => Except.ok ({t with resources := t.resources ++ rs}, s1)

/-- Model of `DRSTable::get_resource`: first entry in the table whose `id` matches,
or a `NotFound` error. -/
def DRSTable.get_resource (t : DRSTable) (id : Nat) : Except ErrKind DRSResource :=
  match t.resources.find? (fun r => r.id == id) with
  | some r => Except.ok r
  | none => Except.error ErrKind.NotFound

/-- Outcome of an operation that may also panic (Rust's `panic!`). -/
inductive PResult (α : Type) where
  | ok : α → PResult α
  | err : ErrKind → PResult α
  | panic : PResult α
deriving DecidableEq

/-- The archive (`struct DRS<R>`): the owned stream handle, the optional
parsed header and the table list. -/
structure DRS where
  handle : ByteStream
  header : Option DRSHeader
  tables : List DRSTable
deriving DecidableEq

/-- Model of `DRS::read_header`: parses the header from the owned handle and stores it. -/
def DRS.read_header (drs : DRS) : Except ErrKind DRS :=
  match DRSHeader.ofStream drs.handle with
  | Except.error e => Except.error e
  | Except.ok (h, s1) => Except.ok {drs with handle := s1, header := some h}

/-- The loop body of `DRS::read_tables`: reads `n` consecutive table
descriptors from the stream's current position. -/
def readTablesLoop : Nat → ByteStream → Except ErrKind (List DRSTable × ByteStream)
  | 0, s => Except.ok ([], s)
  | Nat.succ m, s =>
    match DRSTable.ofStream s with
    | Except.error e => Except.error e
    | Except.ok (t, s1) =>
    match readTablesLoop m s1 with
    | Except.error e => Except.error e
    | Except.ok (ts, s2) => Except.ok (t :: ts, s2)

/-- Model of `DRS::read_tables`: panics when the header has not been parsed yet;
otherwise pushes `num_resource_types` table descriptors. -/
def DRS.read_tables (drs : DRS) : PResult DRS :=
  match drs.header with
  | some header =>
    match readTablesLoop header.num_resource_types drs.handle with
    | Except.error e => PResult.err e
    | Except.ok (ts, s1) => PResult.ok {drs with handle := s1, tables := drs.tables ++ ts}
  | none => PResult.panic

/-- The loop body of `DRS::read_dictionary`: for each table in order, reads its
resource entries from the stream's current position. -/
def readDictLoop : List DRSTable → ByteStream → Except ErrKind (List DRSTable × ByteStream)
  | [], s => Except.ok ([], s)
  | t :: ts, s =>
    match t.read_resources s with
    | Except.error e => Except.error e
    | Except.ok (t1, s1) =>
    match readDictLoop ts s1 with
    | Except.error e => Except.error e
    | Except.ok (ts1, s2) => Except.ok (t1 :: ts1, s2)

/-- Model of `DRS::read_dictionary`: reads every table's resource entries, in table
order, from the stream's current position. -/
def DRS.read_dictionary (drs : DRS) : Except ErrKind DRS :=
  match readDictLoop drs.tables drs.handle with
  | Except.error e => Except.error e
  | Except.ok (ts, s1) => Except.ok {drs with handle := s1, tables := ts}

/-- Model of `DRS::new`: the only public constructor; parses header, table directory
and resource dictionaries in that fixed order. -/
def DRS.new (handle : ByteStream) : PResult DRS :=
  let drs : DRS := ⟨handle, none, []⟩
  match drs.read_header with
  | Except.error e => PResult.err e
  | Except.ok drs1 =>
  match drs1.read_tables with
  | PResult.panic => PResult.panic
  | PResult.err e => PResult.err e
  | PResult.ok drs2 =>
  match drs2.read_dictionary with
  | Except.error e => PResult.err e
  | Except.ok drs3 => PResult.ok drs3

/-- Model of `DRS::get_table`: first table whose raw tag equals the query, else
`NotFound`. -/
def DRS.get_table (drs : DRS) (resource_type : List Nat) : Except ErrKind DRSTable :=
  match drs.tables.find? (fun t => t.resource_type == resource_type) with
  | some t => Except.ok t
  | none => Except.error ErrKind.NotFound

/-- Model of `DRS::get_resource`: resolves the table, then the entry within it. -/
def DRS.get_resource (drs : DRS) (resource_type : List Nat) (id : Nat) :
    Except ErrKind DRSResource :=
  match drs.get_table resource_type with
  | Except.error e => Except.error e
  | Except.ok t => t.get_resource id

/-- Whether an `Except` computation succeeded (Rust's `Result::is_ok`). -/
def exceptOk {ε α : Type} : Except ε α → Bool
  | Except.ok _ => true
  | Except.error _ => false

/-- Model of `DRS::get_resource_type`: the tag of the first table, in stream order,
containing a resource with the given id. -/
def DRS.get_resource_type (drs : DRS) (id : Nat) : Option (List Nat) :=
  (drs.tables.find? (fun t => exceptOk (t.get_resource id))).map
    (fun t => t.resource_type)

/-- Model of `DRS::read_resource`: resolves the entry, seeks to its absolute `offset`,
reads exactly `size` bytes into a fresh buffer. The archive (whose handle
cursor mutates) is returned alongside the result, modelling `&mut self`. -/
def DRS.read_resource (drs : DRS) (resource_type : List Nat) (id : Nat) :
    Except ErrKind (List Nat) × DRS :=
  match drs.get_resource resource_type id with
  | Except.error e => (Except.error e, drs)
  | Except.ok r =>
    let s1 := seekStart drs.handle r.offset
    match readExact s1 r.size with
    | Except.error e => (Except.error e, {drs with handle := s1})
    | Except.ok (buf, s2) => (Except.ok buf, {drs with handle := s2})

/-! ### Stream-advance lemmas for the primitive readers -/

theorem readExact_ok {s : ByteStream} {n : Nat} {buf : List Nat} {s1 : ByteStream}
    (h : readExact s n = Except.ok (buf, s1)) :
    s1.data = s.data ∧ s1.pos = s.pos + n ∧ buf = (s.data.drop s.pos).take n ∧
      s.pos + n ≤ s.data.length := by
  unfold readExact at h
  split at h
  case isTrue hle =>
    cases h
    exact ⟨rfl, rfl, rfl, hle⟩
  case isFalse => exact Except.noConfusion h

theorem readExact_inBounds {s : ByteStream} {n : Nat}
    (hle : s.pos + n ≤ s.data.length) :
    readExact s n = Except.ok ((s.data.drop s.pos).take n, ⟨s.data, s.pos + n⟩) := by
  unfold readExact
  simp [hle]

theorem readU32LE_ok {s : ByteStream} {v : Nat} {s1 : ByteStream}
    (h : readU32LE s = Except.ok (v, s1)) :
    s1.data = s.data ∧ s1.pos = s.pos + 4 := by
  unfold readU32LE at h
  split at h
  case h_1 => exact Except.noConfusion h
  case h_2 bs s2 heq =>
    cases h
    obtain ⟨hd, hp, _, _⟩ := readExact_ok heq
    exact ⟨hd, hp⟩

theorem DRSResource.ofStream_advance12 {s : ByteStream} {r : DRSResource} {s1 : ByteStream}
    (h : DRSResource.ofStream s = Except.ok (r, s1)) :
    s1.data = s.data ∧ s1.pos = s.pos + 12 := by
  unfold DRSResource.ofStream at h
  split at h
  case h_1 => exact Except.noConfusion h
  case h_2 v1 sa heq1 =>
    split at h
    case h_1 => exact Except.noConfusion h
    case h_2 v2 sb heq2 =>
      split at h
      case h_1 => exact Except.noConfusion h
      case h_2 v3 sc heq3 =>
        cases h
        obtain ⟨ha, hpa⟩ := readU32LE_ok heq1
        obtain ⟨hb, hpb⟩ := readU32LE_ok heq2
        obtain ⟨hc, hpc⟩ := readU32LE_ok heq3
        constructor
        · rw [hc, hb, ha]
        · rw [hpc, hpb, hpa]

theorem DRSTable.ofStream_advance12_tbl {s : ByteStream} {t : DRSTable} {s1 : ByteStream}
    (h : DRSTable.ofStream s = Except.ok (t, s1)) :
    s1.data = s.data ∧ s1.pos = s.pos + 12 ∧ t.resources = [] := by
  unfold DRSTable.ofStream at h
  split at h
  case h_1 => exact Except.noConfusion h
  case h_2 tag sa heq1 =>
    split at h
    case h_1 => exact Except.noConfusion h
    case h_2 v2 sb heq2 =>
      split at h
      case h_1 => exact Except.noConfusion h
      case h_2 v3 sc heq3 =>
        cases h
        obtain ⟨ha, hpa, _, _⟩ := readExact_ok heq1
        obtain ⟨hb, hpb⟩ := readU32LE_ok heq2
        obtain ⟨hc, hpc⟩ := readU32LE_ok heq3
        refine ⟨by rw [hc, hb, ha], by rw [hpc, hpb, hpa], rfl⟩

theorem DRSHeader.ofStream_advance64 {s : ByteStream} {h : DRSHeader} {s1 : ByteStream}
    (hh : DRSHeader.ofStream s = Except.ok (h, s1)) :
    s1.data = s.data ∧ s1.pos = s.pos + 64 := by
  unfold DRSHeader.ofStream at hh
  split at hh
  case h_1 => exact Except.noConfusion hh
  case h_2 b sa heq1 =>
    split at hh
    case h_1 => exact Except.noConfusion hh
    case h_2 v sb heq2 =>
      split at hh
      case h_1 => exact Except.noConfusion hh
      case h_2 p sc heq3 =>
        split at hh
        case h_1 => exact Except.noConfusion hh
        case h_2 nrt sd heq4 =>
          split at hh
          case h_1 => exact Except.noConfusion hh
          case h_2 ds se heq5 =>
            cases hh
            obtain ⟨ha, hpa, _, _⟩ := readExact_ok heq1
            obtain ⟨hb, hpb, _, _⟩ := readExact_ok heq2
            obtain ⟨hc, hpc, _, _⟩ := readExact_ok heq3
            obtain ⟨hd, hpd⟩ := readU32LE_ok heq4
            obtain ⟨he, hpe⟩ := readU32LE_ok heq5
            constructor
            · rw [he, hd, hc, hb, ha]
            · rw [hpe, hpd, hpc, hpb, hpa]

/-! ### Loop lemmas -/

theorem readResourcesLoop_ok {n : Nat} {s : ByteStream} {rs : List DRSResource}
    {s1 : ByteStream} (h : readResourcesLoop n s = Except.ok (rs, s1)) :
    rs.length = n ∧ s1.data = s.data ∧ s1.pos = s.pos + 12 * n := by
  induction n generalizing s rs s1 with
  | zero =>
    unfold readResourcesLoop at h
    cases h
    exact ⟨rfl, rfl, by omega⟩
  | succ m ih =>
    unfold readResourcesLoop at h
    split at h
    case h_1 => exact Except.noConfusion h
    case h_2 r sa heq1 =>
      split at h
      case h_1 => exact Except.noConfusion h
      case h_2 rs0 sb heq2 =>
        cases h
        obtain ⟨hd, hp⟩ := DRSResource.ofStream_advance12 heq1
        obtain ⟨hlen, hd2, hp2⟩ := ih heq2
        refine ⟨by simp [hlen], by rw [hd2, hd], ?_⟩
        rw [hp2, hp]
        omega

theorem readTablesLoop_ok {n : Nat} {s : ByteStream} {ts : List DRSTable}
    {s1 : ByteStream} (h : readTablesLoop n s = Except.ok (ts, s1)) :
    ts.length = n ∧ s1.data = s.data ∧ s1.pos = s.pos + 12 * n ∧
      ∀ t ∈ ts, t.resources = [] := by
  induction n generalizing s ts s1 with
  | zero =>
    unfold readTablesLoop at h
    cases h
    exact ⟨rfl, rfl, by omega, by intro t ht; cases ht⟩
  | succ m ih =>
    unfold readTablesLoop at h
    split at h
    case h_1 => exact Except.noConfusion h
    case h_2 t sa heq1 =>
      split at h
      case h_1 => exact Except.noConfusion h
      case h_2 ts0 sb heq2 =>
        cases h
        obtain ⟨hd, hp, hres⟩ := DRSTable.ofStream_advance12_tbl heq1
        obtain ⟨hlen, hd2, hp2, hall⟩ := ih heq2
        refine ⟨by simp [hlen], by rw [hd2, hd], by rw [hp2, hp]; omega, ?_⟩
        intro x hx
        rcases List.mem_cons.mp hx with hx | hx
        · rw [hx]; exact hres
        · exact hall x hx

theorem DRSTable.read_resources_ok {t t1 : DRSTable} {s s1 : ByteStream}
    (h : t.read_resources s = Except.ok (t1, s1)) :
    s1.data = s.data ∧ s1.pos = s.pos + 12 * t.num_resources ∧
      t1.resource_type = t.resource_type ∧ t1.offset = t.offset ∧
      t1.num_resources = t.num_resources ∧
      ∃ rs, readResourcesLoop t.num_resources s = Except.ok (rs, s1) ∧
        t1.resources = t.resources ++ rs ∧ rs.length = t.num_resources := by
  unfold DRSTable.read_resources at h
  split at h
  case h_1 => exact Except.noConfusion h
  case h_2 rs sa heq =>
    cases h
    obtain ⟨hlen, hd, hp⟩ := readResourcesLoop_ok heq
    exact ⟨hd, by rw [hp], rfl, rfl, rfl, rs, heq, rfl, hlen⟩

theorem readDictLoop_ok {ts ts1 : List DRSTable} {s s1 : ByteStream}
    (h : readDictLoop ts s = Except.ok (ts1, s1)) :
    s1.data = s.data ∧
      s1.pos = s.pos + 12 * (ts.map DRSTable.num_resources).sum ∧
      List.Forall₂ (fun t t1 => t1.resource_type = t.resource_type ∧
        t1.offset = t.offset ∧ t1.num_resources = t.num_resources ∧
        t1.resources.length = t.resources.length + t.num_resources) ts ts1 := by
  induction ts generalizing s ts1 s1 with
  | nil =>
    unfold readDictLoop at h
    cases h
    exact ⟨rfl, by simp, List.Forall₂.nil⟩
  | cons t ts ih =>
    unfold readDictLoop at h
    split at h
    case h_1 => exact Except.noConfusion h
    case h_2 t1 sa heq1 =>
      split at h
      case h_1 => exact Except.noConfusion h
      case h_2 ts0 sb heq2 =>
        cases h
        obtain ⟨hd, hp, hty, hoff, hnum, rs, hloop, hres, hlen⟩ :=
          DRSTable.read_resources_ok heq1
        obtain ⟨hd2, hp2, hall⟩ := ih heq2
        refine ⟨by rw [hd2, hd], ?_, ?_⟩
        · rw [hp2, hp]
          simp [List.map_cons, List.sum_cons]
          ring
        · refine List.Forall₂.cons ⟨hty, hoff, hnum, ?_⟩ hall
          rw [hres]
          simp [hlen]

/-! ### Decomposition of a successful construction -/

theorem DRS.new_ok {handle : ByteStream} {drs : DRS}
    (h : DRS.new handle = PResult.ok drs) :
    ∃ hd s1 ts0 s2,
      DRSHeader.ofStream handle = Except.ok (hd, s1) ∧
      s1.data = handle.data ∧ s1.pos = handle.pos + 64 ∧
      readTablesLoop hd.num_resource_types s1 = Except.ok (ts0, s2) ∧
      s2.data = handle.data ∧
      s2.pos = handle.pos + 64 + 12 * hd.num_resource_types ∧
      (∀ t ∈ ts0, t.resources = []) ∧
      ts0.length = hd.num_resource_types ∧
      readDictLoop ts0 s2 = Except.ok (drs.tables, drs.handle) ∧
      drs.header = some hd := by
  rcases heq1 : DRSHeader.ofStream handle with e | ⟨hd, s1⟩
  · simp [DRS.new, DRS.read_header, heq1] at h
  · rcases heq3 : readTablesLoop hd.num_resource_types s1 with e | ⟨ts0, s2⟩
    · simp [DRS.new, DRS.read_header, DRS.read_tables, heq1, heq3] at h
    · rcases heq4 : readDictLoop ts0 s2 with e | ⟨ts1, s3⟩
      · simp [DRS.new, DRS.read_header, DRS.read_tables, DRS.read_dictionary,
          heq1, heq3, heq4] at h
      · simp [DRS.new, DRS.read_header, DRS.read_tables, DRS.read_dictionary,
          heq1, heq3, heq4] at h
        obtain ⟨hd1, hp1⟩ := DRSHeader.ofStream_advance64 heq1
        obtain ⟨hlen, hd2, hp2, hall⟩ := readTablesLoop_ok heq3
        refine ⟨hd, s1, ts0, s2, rfl, hd1, hp1, heq3, by rw [hd2, hd1],
          by rw [hp2, hp1], hall, hlen, ?_, ?_⟩
        · rw [← h]
          exact heq4
        · rw [← h]

/-! ### Lookup lemmas -/

theorem find?_first {α : Type} (p : α → Bool) (pre : List α) (x : α) (post : List α)
    (hpre : ∀ y ∈ pre, p y = false) (hx : p x = true) :
    (pre ++ x :: post).find? p = some x := by
  induction pre with
  | nil => simp [List.find?_cons_of_pos _ hx]
  | cons a as ih =>
    rw [List.cons_append, List.find?_cons_of_neg]
    · exact ih fun y hy => hpre y (List.mem_cons_of_mem a hy)
    · simp [hpre a (List.mem_cons_self a as)]

theorem forall₂_mem_right {α β : Type} {R : α → β → Prop} {l₁ : List α} {l₂ : List β}
    (h : List.Forall₂ R l₁ l₂) : ∀ b ∈ l₂, ∃ a ∈ l₁, R a b := by
  induction h with
  | nil => intro b hb; cases hb
  | cons hr _ ih =>
    intro b hb
    rcases List.mem_cons.mp hb with hb | hb
    · exact ⟨_, List.mem_cons_self _ _, hb ▸ hr⟩
    · obtain ⟨a, ha, har⟩ := ih b hb
      exact ⟨a, List.mem_cons_of_mem _ ha, har⟩

theorem DRSTable.get_resource_notFound {t : DRSTable} {id : Nat}
    (h : ∀ r ∈ t.resources, r.id ≠ id) :
    t.get_resource id = Except.error ErrKind.NotFound := by
  unfold DRSTable.get_resource
  have : t.resources.find? (fun r => r.id == id) = none := by
    rw [List.find?_eq_none]
    intro r hr
    simp [h r hr]
  rw [this]

theorem DRSTable.get_resource_first {t : DRSTable} {id : Nat}
    {pre : List DRSResource} {r : DRSResource} {post : List DRSResource}
    (hsplit : t.resources = pre ++ r :: post) (hr : r.id = id)
    (hpre : ∀ x ∈ pre, x.id ≠ id) :
    t.get_resource id = Except.ok r := by
  have hfind : t.resources.find? (fun x => x.id == id) = some r := by
    rw [hsplit]
    exact find?_first _ pre r post (fun y hy => by simp [hpre y hy]) (by simp [hr])
  unfold DRSTable.get_resource
  rw [hfind]

theorem exceptOk_get_resource {t : DRSTable} {id : Nat} :
    exceptOk (t.get_resource id) = true ↔ ∃ r ∈ t.resources, r.id = id := by
  rcases hfind : t.resources.find? (fun r => r.id == id) with _ | r
  · have hres : t.get_resource id = Except.error ErrKind.NotFound := by
      unfold DRSTable.get_resource
      rw [hfind]
    rw [hres]
    constructor
    · intro hc
      exact absurd hc (by decide)
    · rintro ⟨x, hx, hid⟩
      rw [List.find?_eq_none] at hfind
      have := hfind x hx
      simp [hid] at this
  · have hres : t.get_resource id = Except.ok r := by
      unfold DRSTable.get_resource
      rw [hfind]
    rw [hres]
    constructor
    · intro _
      refine ⟨r, List.mem_of_find?_eq_some hfind, ?_⟩
      have := List.find?_some hfind
      simpa using this
    · intro _
      rfl

theorem DRS.get_table_ok {drs : DRS} {rt : List Nat} {t : DRSTable}
    (h : drs.get_table rt = Except.ok t) :
    t ∈ drs.tables ∧ t.resource_type = rt := by
  unfold DRS.get_table at h
  rcases hfind : drs.tables.find? (fun tb => tb.resource_type == rt) with _ | t0
  · rw [hfind] at h
    exact Except.noConfusion h
  · rw [hfind] at h
    cases h
    refine ⟨List.mem_of_find?_eq_some hfind, ?_⟩
    have := List.find?_some hfind
    simpa using this

/-! ### Claim theorems -/

/-- C3: for every input stream on which archive construction succeeds, the
number of tables held by the resulting archive index equals the
`num_resource_types` field parsed from the header. -/
theorem c3_table_count_eq_header {s : ByteStream} {drs : DRS} {hd : DRSHeader}
    (hnew : DRS.new s = PResult.ok drs) (hh : drs.header = some hd) :
    drs.tables.length = hd.num_resource_types := by
  obtain ⟨hd1, s1, ts0, s2, _, _, _, _, _, _, _, hlen, hdict, hhdr⟩ := DRS.new_ok hnew
  obtain ⟨_, _, hall⟩ := readDictLoop_ok hdict
  have heq : hd1 = hd := by
    rw [hh] at hhdr
    exact (Option.some.inj hhdr).symm
  rw [← hall.length_eq, hlen, heq]

/-- C4: for every input stream on which archive construction succeeds and
every table of the resulting index, the length of the table's resource entry
list equals the table's declared `num_resources`. -/
theorem c4_resource_count_eq_declared {s : ByteStream} {drs : DRS}
    (hnew : DRS.new s = PResult.ok drs) :
    ∀ t ∈ drs.tables, t.resources.length = t.num_resources := by
  obtain ⟨hd1, s1, ts0, s2, _, _, _, _, _, _, hempty, _, hdict, _⟩ := DRS.new_ok hnew
  obtain ⟨_, _, hall⟩ := readDictLoop_ok hdict
  intro t ht
  obtain ⟨t0, ht0, _, _, hnum, hcount⟩ := forall₂_mem_right hall t ht
  rw [hcount, hnum, hempty t0 ht0]
  simp

/-- C9: the panic branch taken when tables are read without a parsed header is
unreachable through the public construction API: `DRS::new`, the only public
construction operation, always returns either a fully built archive or an
error, never the panic outcome. -/
theorem c9_new_never_panics (s : ByteStream) :
    (∃ drs, DRS.new s = PResult.ok drs) ∨ (∃ e, DRS.new s = PResult.err e) := by
  rcases heq1 : DRSHeader.ofStream s with e | ⟨hd, s1⟩
  · exact Or.inr ⟨e, by simp [DRS.new, DRS.read_header, heq1]⟩
  · rcases heq3 : readTablesLoop hd.num_resource_types s1 with e | ⟨ts0, s2⟩
    · exact Or.inr ⟨e, by
        simp [DRS.new, DRS.read_header, DRS.read_tables, heq1, heq3]⟩
    · rcases heq4 : readDictLoop ts0 s2 with e | ⟨ts1, s3⟩
      · exact Or.inr ⟨e, by
          simp [DRS.new, DRS.read_header, DRS.read_tables, DRS.read_dictionary,
            heq1, heq3, heq4]⟩
      · exact Or.inl ⟨⟨s3, some hd, ts1⟩, by
          simp [DRS.new, DRS.read_header, DRS.read_tables, DRS.read_dictionary,
            heq1, heq3, heq4]⟩

/-- C1: for every successfully constructed archive, a `(type_tag, id)` query
that resolves to a resource entry is answered by `read_resource` with a buffer
of exactly the entry's `size` bytes, equal to the bytes of the underlying
stream starting at the entry's `offset` (the entry's byte range lying within
the stream). -/
theorem c1_read_resource_returns_entry_bytes {s : ByteStream} {drs : DRS}
    {rt : List Nat} {id : Nat} {e : DRSResource}
    (hnew : DRS.new s = PResult.ok drs)
    (hres : drs.get_resource rt id = Except.ok e)
    (hbound : e.offset + e.size ≤ drs.handle.data.length) :
    (drs.read_resource rt id).1 =
      Except.ok ((drs.handle.data.drop e.offset).take e.size) ∧
    ((drs.handle.data.drop e.offset).take e.size).length = e.size := by
  have hpos : (seekStart drs.handle e.offset).pos + e.size ≤
      (seekStart drs.handle e.offset).data.length := by
    simp only [seekStart]
    exact hbound
  have hread := readExact_inBounds hpos
  simp only [seekStart] at hread
  constructor
  · simp only [DRS.read_resource, hres, seekStart, hread]
  · rw [List.length_take, List.length_drop]
    omega

/-- C2: for every successfully constructed archive, querying a type tag whose
table exists but contains no entry with the queried id makes `read_resource`
fail with `NotFound` (never `IOFault`), and the archive state, including the
stream cursor, is untouched: no seek or read happens. -/
theorem c2_absent_id_notFound {s : ByteStream} {drs : DRS} {rt : List Nat}
    {id : Nat} {t : DRSTable}
    (hnew : DRS.new s = PResult.ok drs)
    (htab : drs.get_table rt = Except.ok t)
    (hid : ∀ r ∈ t.resources, r.id ≠ id) :
    drs.read_resource rt id = (Except.error ErrKind.NotFound, drs) := by
  have hres : drs.get_resource rt id = Except.error ErrKind.NotFound := by
    unfold DRS.get_resource
    rw [htab]
    exact DRSTable.get_resource_notFound hid
  simp only [DRS.read_resource, hres]

/-! ### Lemmas for idempotence of `read_resource` -/

theorem read_resource_fst_congr {d1 d2 : DRS} (ht : d1.tables = d2.tables)
    (hd : d1.handle.data = d2.handle.data) (rt : List Nat) (id : Nat) :
    (d1.read_resource rt id).1 = (d2.read_resource rt id).1 := by
  have hget : d1.get_resource rt id = d2.get_resource rt id := by
    unfold DRS.get_resource DRS.get_table
    rw [ht]
  unfold DRS.read_resource
  rw [hget]
  rcases hres : d2.get_resource rt id with e | r
  · rfl
  · simp only [seekStart, hd]
    rcases hE : readExact ⟨d2.handle.data, r.offset⟩ r.size with e | ⟨buf, s2⟩
    · rfl
    · rfl

theorem read_resource_snd_preserves (drs : DRS) (rt : List Nat) (id : Nat) :
    (drs.read_resource rt id).2.tables = drs.tables ∧
    (drs.read_resource rt id).2.handle.data = drs.handle.data := by
  unfold DRS.read_resource
  rcases hres : drs.get_resource rt id with e | r
  · exact ⟨rfl, rfl⟩
  · simp only [seekStart]
    rcases hE : readExact ⟨drs.handle.data, r.offset⟩ r.size with e | ⟨buf, s2⟩
    · exact ⟨rfl, rfl⟩
    · refine ⟨rfl, ?_⟩
      obtain ⟨hdd, _, _, _⟩ := readExact_ok hE
      exact hdd

/-- C5: two successive `read_resource` calls for the same `(type_tag, id)`
against the unmodified underlying stream return identical results: the second
call re-performs the seek and read and observes the same bytes. -/
theorem c5_read_resource_idempotent {s : ByteStream} {drs : DRS}
    (rt : List Nat) (id : Nat) (hnew : DRS.new s = PResult.ok drs) :
    ((drs.read_resource rt id).2.read_resource rt id).1 =
      (drs.read_resource rt id).1 := by
  obtain ⟨ht, hd⟩ := read_resource_snd_preserves drs rt id
  exact read_resource_fst_congr ht hd rt id

/-- C7: `get_resource_type` returns the tag of the first table in stream order
containing a resource with the queried id (first table wins on archive-wide
duplicate ids), and `none` exactly when no table contains it. -/
theorem c7_resource_type_first_table {s : ByteStream} {drs : DRS} (id : Nat)
    (hnew : DRS.new s = PResult.ok drs) :
    (drs.get_resource_type id = none ↔
      ∀ t ∈ drs.tables, ∀ r ∈ t.resources, r.id ≠ id) ∧
    (∀ pre t post, drs.tables = pre ++ t :: post →
      (∀ t1 ∈ pre, ∀ r ∈ t1.resources, r.id ≠ id) →
      (∃ r ∈ t.resources, r.id = id) →
      drs.get_resource_type id = some t.resource_type) := by
  constructor
  · unfold DRS.get_resource_type
    rw [Option.map_eq_none', List.find?_eq_none]
    constructor
    · intro h t ht r hr hid
      exact h t ht (exceptOk_get_resource.mpr ⟨r, hr, hid⟩)
    · intro h t ht hex
      obtain ⟨r, hr, hid⟩ := exceptOk_get_resource.mp hex
      exact h t ht r hr hid
  · intro pre t post hsplit hpre hex
    unfold DRS.get_resource_type
    have hfind : drs.tables.find? (fun t => exceptOk (t.get_resource id)) = some t := by
      rw [hsplit]
      apply find?_first
      · intro y hy
        cases hcase : exceptOk (y.get_resource id)
        · rfl
        · obtain ⟨r, hr, hid⟩ := exceptOk_get_resource.mp hcase
          exact absurd hid (hpre y hy r hr)
      · exact exceptOk_get_resource.mpr hex
    rw [hfind]
    rfl

/-- C10: when a table's resource list holds several entries with the same id,
`get_resource` (at the table and archive level) deterministically resolves to
the first matching entry in stream order, and `read_resource` therefore reads
that first entry's byte range. -/
theorem c10_duplicate_id_first_entry {drs : DRS} {rt : List Nat} {id : Nat}
    {t : DRSTable} {pre : List DRSResource} {r : DRSResource}
    {post : List DRSResource}
    (htab : drs.get_table rt = Except.ok t)
    (hsplit : t.resources = pre ++ r :: post) (hr : r.id = id)
    (hpre : ∀ x ∈ pre, x.id ≠ id) :
    t.get_resource id = Except.ok r ∧
    drs.get_resource rt id = Except.ok r ∧
    (drs.read_resource rt id).1 =
      Except.map Prod.fst (readExact (seekStart drs.handle r.offset) r.size) := by
  have h1 := DRSTable.get_resource_first hsplit hr hpre
  have h2 : drs.get_resource rt id = Except.ok r := by
    unfold DRS.get_resource
    rw [htab]
    exact h1
  refine ⟨h1, h2, ?_⟩
  unfold DRS.read_resource
  rw [h2]
  simp only [seekStart]
  rcases hE : readExact ⟨drs.handle.data, r.offset⟩ r.size with e | ⟨buf, s2⟩
  · rfl
  · rfl

/-! ### Short-stream lemmas -/

theorem readExact_error {s : ByteStream} {n : Nat} {e : ErrKind}
    (h : readExact s n = Except.error e) : e = ErrKind.IOFault := by
  unfold readExact at h
  split at h
  · exact Except.noConfusion h
  · exact (Except.error.inj h).symm

theorem readU32LE_error {s : ByteStream} {e : ErrKind}
    (h : readU32LE s = Except.error e) : e = ErrKind.IOFault := by
  unfold readU32LE at h
  split at h
  case h_1 e1 heq =>
    cases h
    exact readExact_error heq
  case h_2 => exact Except.noConfusion h

theorem readU32LE_ok_bound {s : ByteStream} {v : Nat} {s1 : ByteStream}
    (h : readU32LE s = Except.ok (v, s1)) : s.pos + 4 ≤ s.data.length := by
  unfold readU32LE at h
  split at h
  case h_1 => exact Except.noConfusion h
  case h_2 bs s2 heq =>
    obtain ⟨_, _, _, hb⟩ := readExact_ok heq
    exact hb

theorem DRSHeader.ofStream_error {s : ByteStream} {e : ErrKind}
    (h : DRSHeader.ofStream s = Except.error e) : e = ErrKind.IOFault := by
  unfold DRSHeader.ofStream at h
  split at h
  case h_1 e1 heq =>
    cases h
    exact readExact_error heq
  case h_2 b sa heq1 =>
    split at h
    case h_1 e1 heq =>
      cases h
      exact readExact_error heq
    case h_2 v sb heq2 =>
      split at h
      case h_1 e1 heq =>
        cases h
        exact readExact_error heq
      case h_2 p sc heq3 =>
        split at h
        case h_1 e1 heq =>
          cases h
          exact readU32LE_error heq
        case h_2 nrt sd heq4 =>
          split at h
          case h_1 e1 heq =>
            cases h
            exact readU32LE_error heq
          case h_2 => exact Except.noConfusion h

theorem DRSHeader.ofStream_ok_bound {s : ByteStream} {hd : DRSHeader}
    {s1 : ByteStream} (h : DRSHeader.ofStream s = Except.ok (hd, s1)) :
    s.pos + 64 ≤ s.data.length := by
  unfold DRSHeader.ofStream at h
  split at h
  case h_1 => exact Except.noConfusion h
  case h_2 b sa heq1 =>
    split at h
    case h_1 => exact Except.noConfusion h
    case h_2 v sb heq2 =>
      split at h
      case h_1 => exact Except.noConfusion h
      case h_2 p sc heq3 =>
        split at h
        case h_1 => exact Except.noConfusion h
        case h_2 nrt sd heq4 =>
          split at h
          case h_1 => exact Except.noConfusion h
          case h_2 ds se heq5 =>
            obtain ⟨hda, hpa, _, _⟩ := readExact_ok heq1
            obtain ⟨hdb, hpb, _, _⟩ := readExact_ok heq2
            obtain ⟨hdc, hpc, _, _⟩ := readExact_ok heq3
            obtain ⟨hdd, hpd⟩ := readU32LE_ok heq4
            have hb := readU32LE_ok_bound heq5
            rw [hdd, hdc, hdb, hda] at hb
            rw [hpd, hpc, hpb, hpa] at hb
            omega

/-- C8: a stream holding fewer than 64 bytes cannot even provide the header,
so archive construction fails with an `IOFault`-kind error; the error value
carries no archive index, table list or resource data. -/
theorem c8_short_stream_iofault {data : List Nat} (hlen : data.length < 64) :
    DRS.new ⟨data, 0⟩ = PResult.err ErrKind.IOFault := by
  rcases hres : DRSHeader.ofStream ⟨data, 0⟩ with e | ⟨hd, s1⟩
  · have he : e = ErrKind.IOFault := DRSHeader.ofStream_error hres
    subst he
    simp [DRS.new, DRS.read_header, hres]
  · exfalso
    have hb := DRSHeader.ofStream_ok_bound hres
    simp at hb
    omega

/-! ### Sequential-dictionary lemmas -/

theorem readResourcesLoop_append (m n : Nat) (s : ByteStream) :
    readResourcesLoop (m + n) s =
      match readResourcesLoop m s with
      | Except.error e => Except.error e
      | Except.ok (rs1, s1) =>
        match readResourcesLoop n s1 with
        | Except.error e => Except.error e
        | Except.ok (rs2, s2) => Except.ok (rs1 ++ rs2, s2) := by
  induction m generalizing s with
  | zero =>
    rw [Nat.zero_add]
    rcases hx : readResourcesLoop n s with e | ⟨rs2, s2⟩ <;>
      simp [readResourcesLoop, hx]
  | succ m ih =>
    rw [Nat.succ_add]
    rcases hE : DRSResource.ofStream s with e | ⟨r, s1⟩
    · simp [readResourcesLoop, hE]
    · rcases h1 : readResourcesLoop m s1 with e | ⟨rs1, sa⟩
      · simp [readResourcesLoop, hE, h1, ih s1]
      · rcases h2 : readResourcesLoop n sa with e | ⟨rs2, sb⟩ <;>
          simp [readResourcesLoop, hE, h1, h2, ih s1]

theorem readDictLoop_flat {ts : List DRSTable} {s : ByteStream}
    {ts1 : List DRSTable} {s1 : ByteStream}
    (hempty : ∀ t ∈ ts, t.resources = [])
    (h : readDictLoop ts s = Except.ok (ts1, s1)) :
    readResourcesLoop ((ts.map DRSTable.num_resources).sum) s =
      Except.ok ((ts1.map DRSTable.resources).flatten, s1) := by
  induction ts generalizing s ts1 s1 with
  | nil =>
    unfold readDictLoop at h
    cases h
    simp [readResourcesLoop]
  | cons t ts ih =>
    unfold readDictLoop at h
    split at h
    case h_1 => exact Except.noConfusion h
    case h_2 t1 sa heq1 =>
      split at h
      case h_1 => exact Except.noConfusion h
      case h_2 ts0 sb heq2 =>
        cases h
        obtain ⟨_, _, _, _, _, rs, hloop, hres, _⟩ :=
          DRSTable.read_resources_ok heq1
        have ht1 : t1.resources = rs := by
          rw [hres, hempty t (List.mem_cons_self t ts)]
          simp
        have htail := ih (fun x hx => hempty x (List.mem_cons_of_mem t hx)) heq2
        rw [List.map_cons, List.sum_cons, readResourcesLoop_append, hloop]
        simp [htail, ht1]

theorem readDictLoop_offset_independent (g : Nat → Nat) {ts : List DRSTable}
    {s : ByteStream} {ts1 : List DRSTable} {s1 : ByteStream}
    (h : readDictLoop ts s = Except.ok (ts1, s1)) :
    readDictLoop (ts.map (fun t => {t with offset := g t.offset})) s =
      Except.ok (ts1.map (fun t => {t with offset := g t.offset}), s1) := by
  induction ts generalizing s ts1 s1 with
  | nil =>
    unfold readDictLoop at h
    cases h
    simp [readDictLoop]
  | cons t ts ih =>
    unfold readDictLoop at h
    split at h
    case h_1 => exact Except.noConfusion h
    case h_2 t1 sa heq1 =>
      split at h
      case h_1 => exact Except.noConfusion h
      case h_2 ts0 sb heq2 =>
        cases h
        have hupd : ({t with offset := g t.offset} : DRSTable).read_resources s =
            Except.ok ({t1 with offset := g t1.offset}, sa) := by
          unfold DRSTable.read_resources at heq1 ⊢
          split at heq1
          case h_1 => exact Except.noConfusion heq1
          case h_2 rs sc heq3 =>
            cases heq1
            cases t
            simp only at heq3
            simp [heq3]
        have htail := ih heq2
        rw [List.map_cons]
        unfold readDictLoop
        rw [hupd]
        simp [htail]

theorem ByteStream.ext {a b : ByteStream} (hd : a.data = b.data)
    (hp : a.pos = b.pos) : a = b := by
  cases a
  cases b
  simp_all

/-- C6: during construction the resource dictionary reader reads, for each
table in table order, `num_resources` consecutive 12-byte entries starting at
the cursor position left by the table directory reader (byte
`64 + 12 * num_resource_types`), equivalently one flat consecutive run of
entries; it never seeks, and replacing every table descriptor's declared
`offset` field arbitrarily changes nothing about the parse. -/
theorem c6_dictionary_reads_sequentially {data : List Nat} {drs : DRS}
    (hnew : DRS.new ⟨data, 0⟩ = PResult.ok drs) :
    ∃ hd ts0,
      drs.header = some hd ∧
      readTablesLoop hd.num_resource_types ⟨data, 64⟩ =
        Except.ok (ts0, ⟨data, 64 + 12 * hd.num_resource_types⟩) ∧
      readDictLoop ts0 ⟨data, 64 + 12 * hd.num_resource_types⟩ =
        Except.ok (drs.tables, drs.handle) ∧
      readResourcesLoop ((ts0.map DRSTable.num_resources).sum)
          ⟨data, 64 + 12 * hd.num_resource_types⟩ =
        Except.ok ((drs.tables.map DRSTable.resources).flatten, drs.handle) ∧
      drs.handle.data = data ∧
      drs.handle.pos = 64 + 12 * hd.num_resource_types +
        12 * ((ts0.map DRSTable.num_resources).sum) ∧
      (∀ g : Nat → Nat,
        readDictLoop (ts0.map (fun t => {t with offset := g t.offset}))
            ⟨data, 64 + 12 * hd.num_resource_types⟩ =
          Except.ok (drs.tables.map (fun t => {t with offset := g t.offset}),
            drs.handle)) := by
  obtain ⟨hd, s1, ts0, s2, hhead, hs1d, hs1p, htabs, hs2d, hs2p, hempty, hlen,
    hdict, hhdr⟩ := DRS.new_ok hnew
  have e1 : s1 = ⟨data, 64⟩ := ByteStream.ext (by simpa using hs1d)
    (by simpa using hs1p)
  have e2 : s2 = ⟨data, 64 + 12 * hd.num_resource_types⟩ :=
    ByteStream.ext (by simpa using hs2d) (by simpa using hs2p)
  subst e1
  subst e2
  obtain ⟨hdictd, hdictp, hall⟩ := readDictLoop_ok hdict
  refine ⟨hd, ts0, hhdr, htabs, hdict, readDictLoop_flat hempty hdict, ?_, ?_,
    fun g => readDictLoop_offset_independent g hdict⟩
  · rw [hdictd]
  · rw [hdictp]

deriving instance DecidableEq for Except

/-! ### Concrete example archives (the spec's end-to-end scenario and
variants), used to witness the claim theorems on closed inputs. -/

/-- Bytes of a well-formed archive: one table, tag `[1,2,3,4]`, two resources
(id 100 at offset 100, 5 bytes; id 101 at offset 105, 3 bytes). -/
def exampleData : List Nat :=
  List.replicate 40 32 ++ [49, 46, 48, 48] ++ List.replicate 12 0 ++
  [1, 0, 0, 0] ++ [100, 0, 0, 0] ++
  [1, 2, 3, 4] ++ [76, 0, 0, 0] ++ [2, 0, 0, 0] ++
  [100, 0, 0, 0] ++ [100, 0, 0, 0] ++ [5, 0, 0, 0] ++
  [101, 0, 0, 0] ++ [105, 0, 0, 0] ++ [3, 0, 0, 0] ++
  [104, 101, 108, 108, 111] ++ [104, 105, 33]

def exampleStream : ByteStream := ⟨exampleData, 0⟩

def exampleHeader : DRSHeader :=
  ⟨List.replicate 40 32, [49, 46, 48, 48], List.replicate 12 0, 1, 100⟩

def exampleTable : DRSTable :=
  ⟨[1, 2, 3, 4], 76, 2, [⟨100, 100, 5⟩, ⟨101, 105, 3⟩]⟩

def exampleDRS : DRS := ⟨⟨exampleData, 100⟩, some exampleHeader, [exampleTable]⟩

/-- Bytes of an archive with two tables that both contain a resource with
id 7, exercising the first-table-wins tie-break. -/
def example2Data : List Nat :=
  List.replicate 40 32 ++ [49, 46, 48, 48] ++ List.replicate 12 0 ++
  [2, 0, 0, 0] ++ [112, 0, 0, 0] ++
  [5, 6, 7, 8] ++ [88, 0, 0, 0] ++ [1, 0, 0, 0] ++
  [9, 10, 11, 12] ++ [100, 0, 0, 0] ++ [1, 0, 0, 0] ++
  [7, 0, 0, 0] ++ [112, 0, 0, 0] ++ [0, 0, 0, 0] ++
  [7, 0, 0, 0] ++ [112, 0, 0, 0] ++ [0, 0, 0, 0]

def example2Stream : ByteStream := ⟨example2Data, 0⟩

def example2DRS : DRS :=
  ⟨⟨example2Data, 112⟩,
   some ⟨List.replicate 40 32, [49, 46, 48, 48], List.replicate 12 0, 2, 112⟩,
   [⟨[5, 6, 7, 8], 88, 1, [⟨7, 112, 0⟩]⟩,
    ⟨[9, 10, 11, 12], 100, 1, [⟨7, 112, 0⟩]⟩]⟩

/-- A table holding two entries with the same id 7, violating the uniqueness
assumption, for the duplicate-id claim. -/
def dupTable : DRSTable := ⟨[9, 9, 9, 9], 0, 2, [⟨7, 5, 1⟩, ⟨7, 50, 2⟩]⟩

def dupDRS : DRS := ⟨⟨[], 0⟩, none, [dupTable]⟩

/-! ### Witnesses -/

theorem c1_witness :
    DRS.new exampleStream = PResult.ok exampleDRS ∧
    exampleDRS.get_resource [1, 2, 3, 4] 100 = Except.ok ⟨100, 100, 5⟩ ∧
    100 + 5 ≤ exampleDRS.handle.data.length ∧
    ((exampleDRS.read_resource [1, 2, 3, 4] 100).1 =
        Except.ok ((exampleDRS.handle.data.drop 100).take 5) ∧
      ((exampleDRS.handle.data.drop 100).take 5).length = 5) :=
  ⟨by decide, by decide, by decide,
    @c1_read_resource_returns_entry_bytes exampleStream exampleDRS [1, 2, 3, 4]
      100 ⟨100, 100, 5⟩ (by decide) (by decide) (by decide)⟩

theorem c2_witness :
    DRS.new exampleStream = PResult.ok exampleDRS ∧
    exampleDRS.get_table [1, 2, 3, 4] = Except.ok exampleTable ∧
    (∀ r ∈ exampleTable.resources, r.id ≠ 102) ∧
    exampleDRS.read_resource [1, 2, 3, 4] 102 =
      (Except.error ErrKind.NotFound, exampleDRS) :=
  ⟨by decide, by decide, by decide,
    @c2_absent_id_notFound exampleStream exampleDRS [1, 2, 3, 4] 102
      exampleTable (by decide) (by decide) (by decide)⟩

theorem c3_witness :
    DRS.new exampleStream = PResult.ok exampleDRS ∧
    exampleDRS.header = some exampleHeader ∧
    exampleDRS.tables.length = exampleHeader.num_resource_types :=
  ⟨by decide, by decide,
    @c3_table_count_eq_header exampleStream exampleDRS exampleHeader
      (by decide) (by decide)⟩

theorem c4_witness :
    DRS.new exampleStream = PResult.ok exampleDRS ∧
    ∀ t ∈ exampleDRS.tables, t.resources.length = t.num_resources :=
  ⟨by decide,
    @c4_resource_count_eq_declared exampleStream exampleDRS (by decide)⟩

theorem c5_witness :
    DRS.new exampleStream = PResult.ok exampleDRS ∧
    ((exampleDRS.read_resource [1, 2, 3, 4] 100).2.read_resource
        [1, 2, 3, 4] 100).1 =
      (exampleDRS.read_resource [1, 2, 3, 4] 100).1 :=
  ⟨by decide,
    @c5_read_resource_idempotent exampleStream exampleDRS [1, 2, 3, 4] 100
      (by decide)⟩

theorem c6_witness :
    DRS.new ⟨exampleData, 0⟩ = PResult.ok exampleDRS ∧
    ∃ hd ts0,
      exampleDRS.header = some hd ∧
      readTablesLoop hd.num_resource_types ⟨exampleData, 64⟩ =
        Except.ok (ts0, ⟨exampleData, 64 + 12 * hd.num_resource_types⟩) ∧
      readDictLoop ts0 ⟨exampleData, 64 + 12 * hd.num_resource_types⟩ =
        Except.ok (exampleDRS.tables, exampleDRS.handle) ∧
      readResourcesLoop ((ts0.map DRSTable.num_resources).sum)
          ⟨exampleData, 64 + 12 * hd.num_resource_types⟩ =
        Except.ok ((exampleDRS.tables.map DRSTable.resources).flatten,
          exampleDRS.handle) ∧
      exampleDRS.handle.data = exampleData ∧
      exampleDRS.handle.pos = 64 + 12 * hd.num_resource_types +
        12 * ((ts0.map DRSTable.num_resources).sum) ∧
      (∀ g : Nat → Nat,
        readDictLoop (ts0.map (fun t => {t with offset := g t.offset}))
            ⟨exampleData, 64 + 12 * hd.num_resource_types⟩ =
          Except.ok (exampleDRS.tables.map
            (fun t => {t with offset := g t.offset}), exampleDRS.handle)) :=
  ⟨by decide,
    @c6_dictionary_reads_sequentially exampleData exampleDRS (by decide)⟩

theorem c7_witness :
    DRS.new example2Stream = PResult.ok example2DRS ∧
    ((example2DRS.get_resource_type 7 = none ↔
        ∀ t ∈ example2DRS.tables, ∀ r ∈ t.resources, r.id ≠ 7) ∧
      (∀ pre t post, example2DRS.tables = pre ++ t :: post →
        (∀ t1 ∈ pre, ∀ r ∈ t1.resources, r.id ≠ 7) →
        (∃ r ∈ t.resources, r.id = 7) →
        example2DRS.get_resource_type 7 = some t.resource_type)) :=
  ⟨by decide,
    @c7_resource_type_first_table example2Stream example2DRS 7 (by decide)⟩

theorem c8_witness :
    (List.replicate 10 0).length < 64 ∧
    DRS.new ⟨List.replicate 10 0, 0⟩ = PResult.err ErrKind.IOFault :=
  ⟨by decide, @c8_short_stream_iofault (List.replicate 10 0) (by decide)⟩

theorem c10_witness :
    dupDRS.get_table [9, 9, 9, 9] = Except.ok dupTable ∧
    dupTable.resources = [] ++ (⟨7, 5, 1⟩ : DRSResource) :: [⟨7, 50, 2⟩] ∧
    (⟨7, 5, 1⟩ : DRSResource).id = 7 ∧
    (∀ x ∈ ([] : List DRSResource), x.id ≠ 7) ∧
    (dupTable.get_resource 7 = Except.ok ⟨7, 5, 1⟩ ∧
      dupDRS.get_resource [9, 9, 9, 9] 7 = Except.ok ⟨7, 5, 1⟩ ∧
      (dupDRS.read_resource [9, 9, 9, 9] 7).1 =
        Except.map Prod.fst (readExact (seekStart dupDRS.handle 5) 1)) :=
  ⟨by decide, by decide, by decide, by decide,
    @c10_duplicate_id_first_entry dupDRS [9, 9, 9, 9] 7 dupTable []
      ⟨7, 5, 1⟩ [⟨7, 50, 2⟩] (by decide) (by decide) (by decide) (by decide)⟩

end GenieDRS
